import Mathlib

/-!
Verification of the cmdpal selection engine against its design document.

The Python sources under cmdpal/ are shallowly embedded below: pure
functions become Lean functions, dict objects become association lists
(with the last-written binding winning, as in the sources), and the
side-effecting dispatcher becomes a function producing an explicit trace
of events.  Numeric epoch timestamps are modelled as integers, since the
program only ever compares them.  The external rapidfuzz scorer is a
parameter; the surrounding extraction pipeline (score, cut off, stable
descending sort, cap) is modelled from its documented contract, which the
design document restates.
-/

set_option maxRecDepth 40000

namespace CmdPal

/-- A parameter definition of a task (models.TaskParameter). -/
structure TaskParameter where
  name : String
  prompt : Option String := none
deriving DecidableEq, Repr

/-- A stored task (models.Task).  The dataclass defaults parameters and
last_param_values to empty when absent. -/
structure Task where
  id : String
  name : String
  command : String
  cwd : String := "~"
  description : Option String := none
  last_run_timestamp : Option Int := none
  parameters : List TaskParameter := []
  last_param_values : List (String × String) := []
deriving DecidableEq, Repr

/-- A history record (storage.HistoryEntry dictionaries). -/
structure HistoryEntry where
  timestamp : Int
  task_id : String
  directory : String
deriving DecidableEq, Repr

/-- config.HISTORY_MAX_SIZE. -/
def HISTORY_MAX_SIZE : Nat := 200

/-- config.DEFAULT_SCORE_CUTOFF (the cutoff the TUI passes to the ranker). -/
def DEFAULT_SCORE_CUTOFF : Nat := 60

/-- config.RECOMMENDATIONS_COUNT. -/
def RECOMMENDATIONS_COUNT : Nat := 5

/-! ## SearchRanker (utils.fuzzy_search_tasks) -/

/-- The combined searchable string built in utils.fuzzy_search_tasks:
name, description (empty when missing) and command joined by spaces. -/
def searchableString (t : Task) : String :=
  t.name ++ " " ++ t.description.getD "" ++ " " ++ t.command

/-- The sort key used for the empty-query ordering: the Python expression
(t.last_run_timestamp or 0), which maps a missing timestamp to 0. -/
def recencyKey (t : Task) : Int :=
  t.last_run_timestamp.getD 0

/-- The empty-query branch of utils.fuzzy_search_tasks: a stable sort of
the tasks by recencyKey, most recent first.  Python sorted with a key and
reverse=True is stable and keeps ties in input order, which is exactly
List.insertionSort with the reflexive descending relation. -/
def sortByRecency (tasks : List Task) : List Task :=
  List.insertionSort (fun a b => recencyKey b ≤ recencyKey a) tasks

/-- Model of rapidfuzz process.extract as called by the source (and as the
design document describes it): score every choice against the query, keep
the scores reaching the cutoff, sort descending by score with ties kept in
input order, and cap the list at the limit.  The result carries the
matched string together with its score; the index component of the
library tuples is dropped because the source never reads it. -/
def extract (scorer : String → String → Nat) (query : String)
    (choices : List String) (limit score_cutoff : Nat) : List (String × Nat) :=
  let scored := choices.map (fun c => (c, scorer query c))
  let kept := scored.filter (fun x => decide (score_cutoff ≤ x.2))
  (List.insertionSort (fun a b => b.2 ≤ a.2) kept).take limit

/-- The result loop of utils.fuzzy_search_tasks: walk the extraction
results, map each matched string back to a task id through the
string-keyed map, drop falsy and already-seen ids, and resolve the id
through the id-keyed lookup. -/
def collectMatches (searchMap : List (String × String))
    (taskLookup : List (String × Task)) :
    List (String × Nat) → List String → List Task
  | [], _ => []
  | r :: rs, seen =>
    match List.lookup r.1 searchMap with
    | none => collectMatches searchMap taskLookup rs seen
    | some tid =>
      if tid = "" then collectMatches searchMap taskLookup rs seen
      else if tid ∈ seen then collectMatches searchMap taskLookup rs seen
      else
        match List.lookup tid taskLookup with
        | none => collectMatches searchMap taskLookup rs seen
        | some t => t :: collectMatches searchMap taskLookup rs (tid :: seen)

/-- The search_map dict of utils.fuzzy_search_tasks: searchable string to
task id.  It is built by iterating the task list with later assignments
overwriting earlier ones; an association list searched after reversal has
exactly that last-write-wins behaviour. -/
def searchMapOf (tasks : List Task) : List (String × String) :=
  (tasks.map (fun t => (searchableString t, t.id))).reverse

/-- The task_lookup dict of utils.fuzzy_search_tasks: task id to task,
again with dict last-write-wins behaviour. -/
def taskLookupOf (tasks : List Task) : List (String × Task) :=
  (tasks.map (fun t => (t.id, t))).reverse

/-- utils.fuzzy_search_tasks. -/
def fuzzy_search_tasks (scorer : String → String → Nat) (query : String)
    (tasks : List Task) (limit : Nat := 50) (score_cutoff : Nat := 50) :
    List Task :=
  if query = "" then sortByRecency tasks
  else
    collectMatches (searchMapOf tasks) (taskLookupOf tasks)
      (extract scorer query (tasks.map searchableString) limit score_cutoff) []

/-! ## TaskStore (storage.py) -/

/-- storage.add_history_entry on the loaded history list: refuse falsy
arguments, append the fresh record, and keep only the last
HISTORY_MAX_SIZE records when the cap is exceeded. -/
def add_history_entry (history : List HistoryEntry) (task_id directory : String)
    (now : Int) : List HistoryEntry :=
  if task_id = "" ∨ directory = "" then history
  else
    let h := history ++ [⟨now, task_id, directory⟩]
    if HISTORY_MAX_SIZE < h.length then h.drop (h.length - HISTORY_MAX_SIZE)
    else h

/-- The scan inside storage.update_last_run_timestamp: set the timestamp
on the first task with the given id and report whether one was found. -/
def setTimestampFirst : List Task → String → Int → List Task × Bool
  | [], _, _ => ([], false)
  | t :: ts, tid, now =>
    if t.id = tid then ({ t with last_run_timestamp := some now } :: ts, true)
    else
      let p := setTimestampFirst ts tid now
      (t :: p.1, p.2)

/-- storage.update_last_run_timestamp: load, mutate the first match, save
when found (saving is modelled as succeeding), return False otherwise.
The pair is the collection as stored afterwards and the returned flag. -/
def update_last_run_timestamp (tasks : List Task) (tid : String) (now : Int) :
    List Task × Bool :=
  let p := setTimestampFirst tasks tid now
  if p.2 then (p.1, true) else (tasks, false)

/-- Python dict.update on insertion-ordered association lists: existing
keys keep their position and take the new value, genuinely new keys are
appended in their own order. -/
def dictUpdate (old upd : List (String × String)) : List (String × String) :=
  old.map (fun p => (p.1, (List.lookup p.1 upd).getD p.2)) ++
    upd.filter (fun q => (List.lookup q.1 old).isNone)

/-- The scan inside storage.update_last_param_values. -/
def setParamValuesFirst : List Task → String → List (String × String) →
    List Task × Bool
  | [], _, _ => ([], false)
  | t :: ts, tid, values =>
    if t.id = tid then
      ({ t with last_param_values := dictUpdate t.last_param_values values } :: ts,
        true)
    else
      let p := setParamValuesFirst ts tid values
      (t :: p.1, p.2)

/-- storage.update_last_param_values: empty value dicts return True
without touching storage; otherwise load, merge into the first match,
save when found, and return False when the id matches nothing. -/
def update_last_param_values (tasks : List Task) (tid : String)
    (values : List (String × String)) : List Task × Bool :=
  if values = [] then (tasks, true)
  else
    let p := setParamValuesFirst tasks tid values
    if p.2 then (p.1, true) else (tasks, false)

/-! ## SelectionController (tui.CmdPalApp) -/

/-- The cursor-restoration step of CmdPalApp._update_table, as a pure
function from the displayed row keys before the update, the cursor row
before the update, and the row keys after the update, to the cursor after
the update (none when the new table is empty).  The source first resets
an out-of-range cursor row to 0, remembers the row key under it (when the
coordinate is valid), rebuilds the table, and then either moves the
cursor to the remembered key when its value is still among the new keys
or clamps the old numeric row into range. -/
def restore_cursor (oldRows : List String) (oldCursor : Nat)
    (newRows : List String) : Option Nat :=
  let ccr := if oldCursor < oldRows.length then oldCursor else 0
  let key := oldRows[ccr]?
  if newRows.length = 0 then none
  else
    some (match key with
      | some k =>
        if k ∈ newRows then newRows.indexOf k
        else min ccr (newRows.length - 1)
      | none => min ccr (newRows.length - 1))

/-- tui.CmdPalApp.action_select_task looks the highlighted row id up in
the full task list, first match by id. -/
def findFirstTask (tasks : List Task) (tid : String) : Option Task :=
  tasks.find? (fun t => t.id == tid)

/-- Modelled from the spec: the seed of the parameter modal, which is the
last_param_values of the task with a missing name defaulting to the empty
string.  The modal itself is not present under src/ (the shipped
tui.run_task takes no parameter values and main unpacks a pair from the
app), so the seeding is taken from section 4.3 of the design document. -/
def seedFor (t : Task) : List (String × String) :=
  t.parameters.map (fun p => (p.name, (List.lookup p.name t.last_param_values).getD ""))

/-- Outcome of confirming a row in the selection controller. -/
inductive SelectionOutcome where
  | modal (task : Task) (seed : List (String × String))
  | selected (task : Task)
  | noSelection
deriving DecidableEq, Repr

/-- Modelled from the spec: the confirm transition of the selection
controller (section 4.3).  The id lookup mirrors the shipped
action_select_task; the branch on parameter definitions and the seeded
modal are absent from the tui.py under src/ and are modelled from the
design document. -/
def action_select_task (tasks : List Task) (rowIds : List String)
    (cursor : Nat) : SelectionOutcome :=
  match rowIds[cursor]? with
  | none => SelectionOutcome.noSelection
  | some rid =>
    match findFirstTask tasks rid with
    | none => SelectionOutcome.noSelection
    | some t =>
      if t.parameters = [] then SelectionOutcome.selected t
      else SelectionOutcome.modal t (seedFor t)

/-! ## ParameterSubstitution -/

/-- The literal placeholder text for a parameter name. -/
def tokenOf (n : List Char) : List Char :=
  '$' :: '{' :: (n ++ ['}'])

/-- A parameter name that cannot interfere with the token syntax: it is
non-empty and free of the three token delimiter characters.  The data
model requires non-empty names; delimiter-free names are what the
placeholder grammar of the design document presumes. -/
def SimpleName (n : List Char) : Prop :=
  n ≠ [] ∧ '$' ∉ n ∧ '{' ∉ n ∧ '}' ∉ n

instance (n : List Char) : Decidable (SimpleName n) := by
  unfold SimpleName; infer_instance

/-- The first mapping entry whose placeholder token starts at the head of
the remaining template. -/
def findTokenMatch (m : List (List Char × List Char)) (s : List Char) :
    Option (List Char × List Char) :=
  m.find? (fun p => (tokenOf p.1).isPrefixOf s)

/-- Modelled from the spec: simultaneous placeholder substitution over the
original template (section 4.4).  The real substitution code is not under
src/ (main calls a three-argument run_task that src does not define), so
the scan is taken from the words of the design document: walk the
original template once; wherever the token of a mapped name starts, emit
the mapped value and continue after the token, never rescanning the value;
every other character, including any placeholder of an unmapped name, is
copied verbatim. -/
def substituteChars (m : List (List Char × List Char)) : List Char → List Char
  | [] => []
  | c :: rest =>
    match findTokenMatch m (c :: rest) with
    | some p =>
      p.2 ++ substituteChars m (List.drop (tokenOf p.1).length (c :: rest))
    | none => c :: substituteChars m rest
termination_by s => s.length
decreasing_by
  · simp only [List.length_drop, tokenOf, List.length_cons]
    omega
  · simp

/-- String-level wrapper of the substitution scan. -/
def substitute_parameters (values : List (String × String)) (template : String) :
    String :=
  ⟨substituteChars (values.map (fun p => (p.1.data, p.2.data))) template.data⟩

/-! ## ExecutionDispatcher (tui.run_task) -/

/-- Observable effects of the dispatcher, in the order performed. -/
inductive Event where
  | updateTimestamp (taskId : String)
  | warnTimestampFailed
  | addHistory (taskId directory : String)
  | checkDir (dir : String)
  | dirError (dir : String)
  | spawn (command dir : String)
  | warnNonZero (code : Int)
deriving DecidableEq, Repr

/-- tui.run_task as an event trace: update the timestamp (warning when the
update reports failure), append the history record with the launch
directory, expand the home reference in the task cwd, check that the
resolved directory exists and abort with a directory error when it does
not, otherwise spawn the command there and warn on a non-zero exit. -/
def run_task (task : Task) (launch_cwd : String) (tsUpdateOk : Bool)
    (dirExists : String → Bool) (expandUser : String → String)
    (exitCode : Int) : List Event :=
  let command := task.command
  let run_cwd := expandUser task.cwd
  [Event.updateTimestamp task.id] ++
    (if tsUpdateOk then [] else [Event.warnTimestampFailed]) ++
    [Event.addHistory task.id launch_cwd, Event.checkDir run_cwd] ++
    (if dirExists run_cwd then
      Event.spawn command run_cwd ::
        (if exitCode = 0 then [] else [Event.warnNonZero exitCode])
    else [Event.dirError run_cwd])

/-- Modelled from the spec: the dispatcher variant that takes the resolved
parameter values, which is the run_task signature main actually calls but
src/ does not contain.  Per section 4.5, the command is the template when
no values were supplied and the substituted template otherwise; all other
steps are those of the shipped run_task. -/
def run_task_with_params (task : Task)
    (param_values : Option (List (String × String))) (launch_cwd : String)
    (tsUpdateOk : Bool) (dirExists : String → Bool)
    (expandUser : String → String) (exitCode : Int) : List Event :=
  let command := match param_values with
    | some values => substitute_parameters values task.command
    | none => task.command
  let run_cwd := expandUser task.cwd
  [Event.updateTimestamp task.id] ++
    (if tsUpdateOk then [] else [Event.warnTimestampFailed]) ++
    [Event.addHistory task.id launch_cwd, Event.checkDir run_cwd] ++
    (if dirExists run_cwd then
      Event.spawn command run_cwd ::
        (if exitCode = 0 then [] else [Event.warnNonZero exitCode])
    else [Event.dirError run_cwd])

/-! ## General helper lemmas -/

/-- First-index lookup used by the cursor restoration: bound. -/
lemma indexOf_lt_length_str {k : String} :
    ∀ {l : List String}, k ∈ l → l.indexOf k < l.length := by
  intro l
  induction l with
  | nil => intro h; cases h
  | cons b l ih =>
    intro h
    by_cases hb : b = k
    · simp [List.indexOf_cons, hb]
    · rcases List.mem_cons.mp h with h | h
      · exact absurd h.symm hb
      · simpa [List.indexOf_cons, hb] using Nat.succ_lt_succ (ih h)

/-- First-index lookup used by the cursor restoration: the row found. -/
lemma getElem?_indexOf_str {k : String} :
    ∀ {l : List String}, k ∈ l → l[l.indexOf k]? = some k := by
  intro l
  induction l with
  | nil => intro h; cases h
  | cons b l ih =>
    intro h
    by_cases hb : b = k
    · simp [List.indexOf_cons, hb]
    · rcases List.mem_cons.mp h with h | h
      · exact absurd h.symm hb
      · simpa [List.indexOf_cons, hb] using ih h

/-- Association-list lookup finds a present binding when keys are unique. -/
lemma lookup_of_mem_nodupKeys {β : Type} {k : String} {v : β} :
    ∀ {l : List (String × β)}, (l.map Prod.fst).Nodup → (k, v) ∈ l →
      List.lookup k l = some v := by
  intro l
  induction l with
  | nil => intro _ h; cases h
  | cons p l ih =>
    intro hnd h
    rcases List.mem_cons.mp h with h | h
    · subst h
      simp [List.lookup_cons]
    · have hk : (k == p.1) = false := by
        apply beq_eq_false_iff_ne.mpr
        intro he
        have hmem : k ∈ l.map Prod.fst := List.mem_map_of_mem Prod.fst h
        exact (List.nodup_cons.mp hnd).1 (he ▸ hmem)
      rw [List.lookup_cons, hk]
      exact ih (List.nodup_cons.mp hnd).2 h

/-- A successful association-list lookup comes from a binding in the list. -/
lemma lookup_mem {β : Type} {k : String} {v : β} :
    ∀ {l : List (String × β)}, List.lookup k l = some v → (k, v) ∈ l := by
  intro l
  induction l with
  | nil => intro h; simp [List.lookup] at h
  | cons p l ih =>
    obtain ⟨p1, p2⟩ := p
    intro h
    rw [List.lookup_cons] at h
    by_cases hpk : (k == p1) = true
    · rw [hpk] at h
      have hk : k = p1 := by simpa using hpk
      have hv : p2 = v := by simpa using h
      subst hk
      subst hv
      exact List.mem_cons_self _ _
    · rw [Bool.not_eq_true] at hpk
      rw [hpk] at h
      exact List.mem_cons_of_mem _ (ih h)

/-- Inserting into a list does not disturb the sublist of elements whose
key takes a given value, except that an element carrying that very key is
placed in front; this is the heart of the stability of the descending
insertion sort that models Python sorted with reverse=True. -/
lemma filter_orderedInsert_key {α β : Type} [LinearOrder β] (key : α → β)
    (k : β) (a : α) (l : List α) :
    (List.orderedInsert (fun x y => key y ≤ key x) a l).filter
        (fun x => decide (key x = k)) =
      if key a = k then a :: l.filter (fun x => decide (key x = k))
      else l.filter (fun x => decide (key x = k)) := by
  induction l with
  | nil =>
    by_cases h : key a = k <;> simp [List.orderedInsert, h]
  | cons b l ih =>
    by_cases hba : key b ≤ key a
    · rw [show List.orderedInsert (fun x y => key y ≤ key x) a (b :: l) =
          a :: b :: l from by simp [List.orderedInsert, hba]]
      by_cases h : key a = k <;> simp [List.filter_cons, h]
    · rw [show List.orderedInsert (fun x y => key y ≤ key x) a (b :: l) =
          b :: List.orderedInsert (fun x y => key y ≤ key x) a l from by
        simp [List.orderedInsert, hba]]
      have hb : key a < key b := not_le.mp hba
      by_cases h : key a = k
      · have hbk : ¬ key b = k := by
          intro hk
          exact absurd (h ▸ hk ▸ hb) (lt_irrefl _)
        simp [List.filter_cons, hbk, ih, h]
      · by_cases hbk : key b = k <;> simp [List.filter_cons, hbk, ih, h]

/-- Stability of the descending insertion sort: the subsequence of
elements at any fixed key value is exactly the input subsequence. -/
lemma filter_insertionSort_key {α β : Type} [LinearOrder β] (key : α → β)
    (k : β) (l : List α) :
    (List.insertionSort (fun x y => key y ≤ key x) l).filter
        (fun x => decide (key x = k)) =
      l.filter (fun x => decide (key x = k)) := by
  induction l with
  | nil => rfl
  | cons a l ih =>
    simp only [List.insertionSort]
    rw [filter_orderedInsert_key, ih]
    by_cases h : key a = k <;> simp [List.filter_cons, h]

/-- The descending insertion sort yields a list that is pairwise sorted,
larger keys first. -/
lemma pairwise_insertionSort_key {α β : Type} [LinearOrder β] (key : α → β)
    (l : List α) :
    (List.insertionSort (fun x y => key y ≤ key x) l).Pairwise
      (fun x y => key y ≤ key x) := by
  haveI : IsTotal α (fun x y => key y ≤ key x) :=
    ⟨fun a b => (le_total (key b) (key a)).elim Or.inl Or.inr⟩
  haveI : IsTrans α (fun x y => key y ≤ key x) :=
    ⟨fun _ _ _ hab hbc => le_trans hbc hab⟩
  exact List.sorted_insertionSort _ l

/-- Reflexive relations hold pairwise on a replicated list. -/
lemma pairwise_replicate_self {α : Type} {R : α → α → Prop} {a : α}
    (h : R a a) : ∀ n, (List.replicate n a).Pairwise R
  | 0 => List.Pairwise.nil
  | n + 1 => by
    rw [List.replicate_succ]
    exact List.Pairwise.cons
      (fun b hb => (List.eq_of_mem_replicate hb) ▸ h)
      (pairwise_replicate_self h n)

/-! ## C8 -/

/-- C8: in the dispatcher, the timestamp update and the history append
happen before the working-directory existence check, and when the
resolved directory does not exist the dispatcher emits a directory error
and returns without ever spawning a process, the earlier bookkeeping
having already occurred.  The trace equality exhibits the order of the
events literally. -/
theorem bookkeeping_precedes_directory_check (task : Task)
    (launch_cwd : String) (tsUpdateOk : Bool) (dirExists : String → Bool)
    (expandUser : String → String) (exitCode : Int)
    (habs : dirExists (expandUser task.cwd) = false) :
    run_task task launch_cwd tsUpdateOk dirExists expandUser exitCode =
      [Event.updateTimestamp task.id] ++
        (if tsUpdateOk then [] else [Event.warnTimestampFailed]) ++
        [Event.addHistory task.id launch_cwd,
          Event.checkDir (expandUser task.cwd),
          Event.dirError (expandUser task.cwd)] ∧
    ∀ c d, Event.spawn c d ∉
        run_task task launch_cwd tsUpdateOk dirExists expandUser exitCode := by
  constructor
  · cases tsUpdateOk <;> simp [run_task, habs]
  · intro c d
    cases tsUpdateOk <;> simp [run_task, habs]

/-- C8 witness: a concrete dispatch into a missing directory. -/
theorem bookkeeping_precedes_directory_check_witness :
    run_task { id := "t", name := "n", command := "c" } "/d" true
        (fun _ => false) (fun s => s) 0 =
      [Event.updateTimestamp "t", Event.addHistory "t" "/d",
        Event.checkDir "~", Event.dirError "~"] ∧
    Event.spawn "c" "~" ∉
      run_task { id := "t", name := "n", command := "c" } "/d" true
        (fun _ => false) (fun s => s) 0 := by
  have h := bookkeeping_precedes_directory_check
    { id := "t", name := "n", command := "c" } "/d" true
    (fun _ => false) (fun s => s) 0 rfl
  exact ⟨h.1.trans (by decide), h.2 "c" "~"⟩

/-! ## C4 -/

/-- C4: after a recomputation of the rows, a surviving task id keeps the
cursor (the cursor lands on the position of that id in the new rows); a
vanished id clamps the previous numeric row into range; an empty new list
clears the selection; and any produced cursor is in bounds. -/
theorem cursor_identity_preserved (oldRows newRows : List String) (i : Nat)
    (hi : i < oldRows.length) :
    (∀ k, oldRows[i]? = some k → k ∈ newRows →
      restore_cursor oldRows i newRows = some (newRows.indexOf k) ∧
        newRows[newRows.indexOf k]? = some k) ∧
    (∀ k, oldRows[i]? = some k → k ∉ newRows → newRows ≠ [] →
      restore_cursor oldRows i newRows = some (min i (newRows.length - 1))) ∧
    (newRows = [] → restore_cursor oldRows i newRows = none) ∧
    (∀ j, restore_cursor oldRows i newRows = some j → j < newRows.length) := by
  have hccr : (if i < oldRows.length then i else 0) = i := if_pos hi
  refine ⟨?_, ?_, ?_, ?_⟩
  · intro k hk hmem
    have hnil : newRows.length ≠ 0 := by
      intro h0
      exact absurd hmem (by simp [List.length_eq_zero.mp h0])
    constructor
    · simp [restore_cursor, hccr, hk, hmem, hnil]
    · exact getElem?_indexOf_str hmem
  · intro k hk hmem hne
    have hnil : newRows.length ≠ 0 := by
      simpa [List.length_eq_zero] using hne
    simp [restore_cursor, hccr, hk, hmem, hnil]
  · intro h
    simp [restore_cursor, h]
  · intro j hj
    by_cases hnil : newRows.length = 0
    · simp [restore_cursor, hnil] at hj
    · have hpos : 0 < newRows.length := Nat.pos_of_ne_zero hnil
      rcases hk : oldRows[i]? with _ | k
      · simp [restore_cursor, hccr, hk, hnil] at hj
        omega
      · by_cases hmem : k ∈ newRows
        · simp [restore_cursor, hccr, hk, hmem, hnil] at hj
          exact hj ▸ indexOf_lt_length_str hmem
        · simp [restore_cursor, hccr, hk, hmem, hnil] at hj
          omega

/-- C4 witness: the example from the design document, rows a, b, c with
the cursor on b, refiltered to rows b, d: the cursor must reference b. -/
theorem cursor_identity_preserved_witness :
    restore_cursor ["a", "b", "c"] 1 ["b", "d"] = some (["b", "d"].indexOf "b") ∧
    ["b", "d"][["b", "d"].indexOf "b"]? = some "b" ∧
    restore_cursor ["a", "b", "c"] 1 [] = none := by
  have h := cursor_identity_preserved ["a", "b", "c"] ["b", "d"] 1 (by decide)
  have h0 := cursor_identity_preserved ["a", "b", "c"] [] 1 (by decide)
  have h1 := h.1 "b" (by decide) (by decide)
  exact ⟨h1.1, h1.2, h0.2.2.1 rfl⟩

/-! ## C9 -/

/-- The timestamp scan reports failure on a list without the id. -/
lemma setTimestampFirst_not_found (tid : String) (now : Int) :
    ∀ (tasks : List Task), (∀ t ∈ tasks, t.id ≠ tid) →
      setTimestampFirst tasks tid now = (tasks, false)
  | [], _ => rfl
  | t :: ts, h => by
    rw [setTimestampFirst, if_neg (h t (List.mem_cons_self t ts))]
    rw [setTimestampFirst_not_found tid now ts
      (fun u hu => h u (List.mem_cons_of_mem t hu))]

/-- The parameter-value scan reports failure on a list without the id. -/
lemma setParamValuesFirst_not_found (tid : String)
    (values : List (String × String)) :
    ∀ (tasks : List Task), (∀ t ∈ tasks, t.id ≠ tid) →
      setParamValuesFirst tasks tid values = (tasks, false)
  | [], _ => rfl
  | t :: ts, h => by
    rw [setParamValuesFirst, if_neg (h t (List.mem_cons_self t ts))]
    rw [setParamValuesFirst_not_found tid values ts
      (fun u hu => h u (List.mem_cons_of_mem t hu))]

/-- C9 amended: when the id matches no stored task, both targeted updates
leave the stored collection unchanged and raise nothing, but they return
False, the same value a save failure returns; only the empty-values
short-circuit of the parameter update returns True.  (The callers react
to the False by printing a warning.) -/
theorem vanished_id_unsaved_but_returns_false (tasks : List Task)
    (tid : String) (now : Int) (values : List (String × String))
    (h : ∀ t ∈ tasks, t.id ≠ tid) :
    update_last_run_timestamp tasks tid now = (tasks, false) ∧
    (values ≠ [] → update_last_param_values tasks tid values = (tasks, false)) ∧
    update_last_param_values tasks tid [] = (tasks, true) := by
  refine ⟨?_, ?_, ?_⟩
  · rw [update_last_run_timestamp, setTimestampFirst_not_found tid now tasks h]
    simp
  · intro hv
    rw [update_last_param_values, if_neg hv,
      setParamValuesFirst_not_found tid values tasks h]
    simp
  · rfl

/-- C9 amended witness: a concrete miss. -/
theorem vanished_id_unsaved_but_returns_false_witness :
    update_last_run_timestamp [{ id := "1", name := "n", command := "c" }] "2" 7 =
      ([{ id := "1", name := "n", command := "c" }], false) ∧
    update_last_param_values [{ id := "1", name := "n", command := "c" }] "2"
        [("k", "v")] =
      ([{ id := "1", name := "n", command := "c" }], false) := by
  have h := vanished_id_unsaved_but_returns_false
    [{ id := "1", name := "n", command := "c" }] "2" 7 [("k", "v")] (by decide)
  exact ⟨h.1, h.2.1 (by decide)⟩

/-- C9 counterexample: the claim that no error is signalled to the caller
fails, because on a vanished id both functions return False, which is the
very failure signal the callers check for; the dispatcher then prints its
timestamp warning (the warning event appears in its trace when the update
reports failure). -/
theorem vanished_id_signals_failure_counterexample :
    (update_last_run_timestamp [{ id := "1", name := "n", command := "c" }]
        "2" 7).2 = false ∧
    (update_last_param_values [{ id := "1", name := "n", command := "c" }]
        "2" [("k", "v")]).2 = false ∧
    Event.warnTimestampFailed ∈
      run_task { id := "1", name := "n", command := "c" } "/d" false
        (fun _ => true) (fun s => s) 0 := by
  decide

/-! ## C5 -/

/-- C5 amended: appending to a 200-entry history stored in timestamp
order, with the fresh entry no older than the stored ones, keeps exactly
200 entries, namely everything but the positionally-first entry plus the
fresh one, and every kept entry is at least as recent as the dropped
head. -/
theorem history_cap_keeps_most_recent (history : List HistoryEntry)
    (task_id directory : String) (now : Int) (e0 : HistoryEntry)
    (htid : task_id ≠ "") (hdir : directory ≠ "")
    (hlen : history.length = HISTORY_MAX_SIZE)
    (hhead : history.head? = some e0)
    (hsorted : history.Pairwise (fun a b => a.timestamp ≤ b.timestamp))
    (hnow : ∀ a ∈ history, a.timestamp ≤ now) :
    (add_history_entry history task_id directory now).length = HISTORY_MAX_SIZE ∧
    add_history_entry history task_id directory now =
      history.tail ++ [⟨now, task_id, directory⟩] ∧
    ∀ a ∈ add_history_entry history task_id directory now,
      e0.timestamp ≤ a.timestamp := by
  obtain ⟨rest, rfl⟩ : ∃ rest, history = e0 :: rest := by
    cases history with
    | nil => exact absurd hhead (by simp)
    | cons x rest =>
      have hx : x = e0 := by simpa using hhead
      exact ⟨rest, by rw [hx]⟩
  have hlen' : rest.length = 199 := by
    simp [HISTORY_MAX_SIZE] at hlen
    omega
  have heq : add_history_entry (e0 :: rest) task_id directory now =
      rest ++ [⟨now, task_id, directory⟩] := by
    rw [add_history_entry, if_neg (by simp [htid, hdir])]
    have hlen2 : ((e0 :: rest) ++ [(⟨now, task_id, directory⟩ : HistoryEntry)]).length
        = 201 := by simp [hlen']
    rw [if_pos (by rw [hlen2]; decide)]
    rw [hlen2]
    simp [HISTORY_MAX_SIZE]
  refine ⟨?_, ?_, ?_⟩
  · rw [heq]
    simp [hlen', HISTORY_MAX_SIZE]
  · rw [heq]
    rfl
  · intro a ha
    rw [heq] at ha
    rcases List.mem_append.mp ha with ha | ha
    · exact (List.pairwise_cons.mp hsorted).1 a ha
    · have : a = (⟨now, task_id, directory⟩ : HistoryEntry) := by simpa using ha
      rw [this]
      exact hnow e0 (List.mem_cons_self _ _)

/-- C5 amended witness: a concrete full history of equal timestamps. -/
theorem history_cap_keeps_most_recent_witness :
    (add_history_entry (List.replicate 200 (⟨5, "t", "d"⟩ : HistoryEntry))
        "t" "d" 9).length = HISTORY_MAX_SIZE ∧
    add_history_entry (List.replicate 200 (⟨5, "t", "d"⟩ : HistoryEntry))
        "t" "d" 9 =
      (List.replicate 200 (⟨5, "t", "d"⟩ : HistoryEntry)).tail ++
        [⟨9, "t", "d"⟩] := by
  have h := history_cap_keeps_most_recent
    (List.replicate 200 (⟨5, "t", "d"⟩ : HistoryEntry)) "t" "d" 9 ⟨5, "t", "d"⟩
    (by decide) (by decide)
    (by simp [HISTORY_MAX_SIZE])
    (by decide)
    (pairwise_replicate_self (by decide) 200)
    (fun a ha => by rw [List.eq_of_mem_replicate ha]; decide)
  exact ⟨h.1, h.2.1⟩

/-- C5 counterexample: on an out-of-order stored history the cap does not
keep the 200 most recent entries by timestamp.  Here the positionally
first entry is the second most recent of the 201 (timestamp 999), yet it
is the one dropped, while 199 much older entries (timestamp 0) are kept. -/
theorem history_cap_drops_by_position_counterexample :
    (((⟨999, "t", "d"⟩ : HistoryEntry) ::
        List.replicate 199 (⟨0, "t", "d"⟩ : HistoryEntry)).length =
      HISTORY_MAX_SIZE) ∧
    add_history_entry
        ((⟨999, "t", "d"⟩ : HistoryEntry) ::
          List.replicate 199 (⟨0, "t", "d"⟩ : HistoryEntry)) "t" "d" 1000 =
      List.replicate 199 (⟨0, "t", "d"⟩ : HistoryEntry) ++ [⟨1000, "t", "d"⟩] ∧
    (⟨999, "t", "d"⟩ : HistoryEntry) ∉
      add_history_entry
        ((⟨999, "t", "d"⟩ : HistoryEntry) ::
          List.replicate 199 (⟨0, "t", "d"⟩ : HistoryEntry)) "t" "d" 1000 ∧
    (⟨0, "t", "d"⟩ : HistoryEntry) ∈
      add_history_entry
        ((⟨999, "t", "d"⟩ : HistoryEntry) ::
          List.replicate 199 (⟨0, "t", "d"⟩ : HistoryEntry)) "t" "d" 1000 := by
  decide

/-! ## C2 -/

/-- C2: confirming a row resolves the task behind the row id; with
parameter definitions present the controller opens the modal seeded from
last_param_values, each defined parameter seeded with its last value or
the empty string; without parameter definitions it goes straight to the
selected outcome with no values.  (Parameter names are unique within a
task, a stated data-model invariant.) -/
theorem confirm_prompts_or_selects (tasks : List Task) (rowIds : List String)
    (cursor : Nat) (rid : String) (t : Task)
    (hrow : rowIds[cursor]? = some rid)
    (hfind : findFirstTask tasks rid = some t)
    (hnd : (t.parameters.map TaskParameter.name).Nodup) :
    (t.parameters ≠ [] →
      action_select_task tasks rowIds cursor =
        SelectionOutcome.modal t (seedFor t) ∧
      ∀ p ∈ t.parameters,
        List.lookup p.name (seedFor t) =
          some ((List.lookup p.name t.last_param_values).getD "")) ∧
    (t.parameters = [] →
      action_select_task tasks rowIds cursor = SelectionOutcome.selected t) := by
  constructor
  · intro hp
    constructor
    · simp only [action_select_task, hrow, hfind]
      rw [if_neg hp]
    · intro p hp'
      apply lookup_of_mem_nodupKeys
      · rw [seedFor, List.map_map]
        exact hnd
      · rw [seedFor]
        exact List.mem_map_of_mem _ hp'
  · intro hp
    simp only [action_select_task, hrow, hfind]
    rw [if_pos hp]

/-- C2 witness: one parameter with a remembered value and one without. -/
theorem confirm_prompts_or_selects_witness :
    action_select_task
        [{ id := "1", name := "n", command := "c",
           parameters := [{ name := "file" }, { name := "mode" }],
           last_param_values := [("file", "a.txt")] }] ["1"] 0 =
      SelectionOutcome.modal
        { id := "1", name := "n", command := "c",
          parameters := [{ name := "file" }, { name := "mode" }],
          last_param_values := [("file", "a.txt")] }
        [("file", "a.txt"), ("mode", "")] ∧
    List.lookup "mode"
        (seedFor
          { id := "1", name := "n", command := "c",
            parameters := [{ name := "file" }, { name := "mode" }],
            last_param_values := [("file", "a.txt")] }) = some "" := by
  have h := confirm_prompts_or_selects
    [{ id := "1", name := "n", command := "c",
       parameters := [{ name := "file" }, { name := "mode" }],
       last_param_values := [("file", "a.txt")] }] ["1"] 0 "1"
    { id := "1", name := "n", command := "c",
      parameters := [{ name := "file" }, { name := "mode" }],
      last_param_values := [("file", "a.txt")] }
    (by decide) (by decide) (by decide)
  have h1 := (h.1 (by decide)).1
  have h2 := (h.1 (by decide)).2 { name := "mode" } (by decide)
  exact ⟨h1.trans (by decide), h2.trans (by decide)⟩

/-! ## C1 -/

/-- No token can start at a character other than the dollar sign. -/
lemma findTokenMatch_cons_ne_dollar (m : List (List Char × List Char))
    (c : Char) (rest : List Char) (hc : c ≠ '$') :
    findTokenMatch m (c :: rest) = none := by
  rw [findTokenMatch, List.find?_eq_none]
  intro p _
  have hb : ('$' == c) = false := beq_eq_false_iff_ne.mpr (Ne.symm hc)
  simp [tokenOf, List.isPrefixOf, hb]

/-- The scan of the empty template. -/
lemma substituteChars_nil (m : List (List Char × List Char)) :
    substituteChars m [] = [] := by
  rw [substituteChars]

/-- Unfolding of the scan at a matched token. -/
lemma substituteChars_cons_match (m : List (List Char × List Char))
    (c : Char) (rest n v : List Char)
    (h : findTokenMatch m (c :: rest) = some (n, v)) :
    substituteChars m (c :: rest) =
      v ++ substituteChars m (List.drop (tokenOf n).length (c :: rest)) := by
  rw [substituteChars, h]

/-- Unfolding of the scan at an unmatched character. -/
lemma substituteChars_cons_none (m : List (List Char × List Char))
    (c : Char) (rest : List Char)
    (h : findTokenMatch m (c :: rest) = none) :
    substituteChars m (c :: rest) = c :: substituteChars m rest := by
  rw [substituteChars, h]

/-- A dollar-free segment of the template is copied verbatim. -/
lemma substituteChars_append_dollarFree (m : List (List Char × List Char)) :
    ∀ (a s : List Char), '$' ∉ a →
      substituteChars m (a ++ s) = a ++ substituteChars m s
  | [], s, _ => by simp
  | c :: a, s, ha => by
    have hc : c ≠ '$' := fun h => ha (h ▸ List.mem_cons_self c a)
    rw [List.cons_append,
      substituteChars_cons_none m c (a ++ s)
        (findTokenMatch_cons_ne_dollar m c (a ++ s) hc),
      substituteChars_append_dollarFree m a s
        (fun h => ha (List.mem_cons_of_mem c h))]
    rfl

/-- Matching one token name against the text of another: with names free
of the closing brace, the bracketed name is determined by the first
closing brace of the text. -/
lemma closed_name_isPrefixOf_iff :
    ∀ (k n b : List Char), '}' ∉ k → '}' ∉ n →
      (((k ++ ['}']).isPrefixOf (n ++ '}' :: b)) = true ↔ k = n)
  | [], [], b, _, _ => by simp [List.isPrefixOf]
  | [], c :: n, b, _, hn => by
    have hc : c ≠ '}' := fun h => hn (h ▸ List.mem_cons_self c n)
    simp [List.isPrefixOf, Ne.symm hc]
  | a :: k, [], b, hk, _ => by
    have ha : a ≠ '}' := fun h => hk (h ▸ List.mem_cons_self a k)
    simp [List.isPrefixOf, ha]
  | a :: k, c :: n, b, hk, hn => by
    have ih := closed_name_isPrefixOf_iff k n b
      (fun h => hk (List.mem_cons_of_mem a h))
      (fun h => hn (List.mem_cons_of_mem c h))
    simp [List.isPrefixOf, ih, List.cons_eq_cons]

/-- At the start of the token of a simple name, the scan finds exactly the
first mapping entry for that name. -/
lemma findTokenMatch_at_token (n b : List Char) (hn : SimpleName n) :
    ∀ (m : List (List Char × List Char)), (∀ p ∈ m, SimpleName p.1) →
      findTokenMatch m (tokenOf n ++ b) =
        (List.lookup n m).map (fun v => (n, v))
  | [], _ => by simp [findTokenMatch, List.lookup]
  | (k, v) :: m, hm => by
    have hk : SimpleName k := hm (k, v) (List.mem_cons_self _ _)
    have hshape : tokenOf n ++ b = '$' :: '{' :: (n ++ '}' :: b) := by
      simp [tokenOf]
    have hcore : ((k ++ ['}']).isPrefixOf (n ++ '}' :: b)) = (k == n) := by
      by_cases hkn : k = n
      · subst hkn
        rw [(closed_name_isPrefixOf_iff k k b hk.2.2.2 hk.2.2.2).mpr rfl,
          beq_self_eq_true]
      · rw [beq_eq_false_iff_ne.mpr hkn]
        exact Bool.eq_false_iff.mpr
          (fun hpre => hkn
            ((closed_name_isPrefixOf_iff k n b hk.2.2.2 hn.2.2.2).mp hpre))
    have hpre : ((tokenOf k).isPrefixOf (tokenOf n ++ b)) = (k == n) := by
      rw [hshape]
      simp only [tokenOf, List.isPrefixOf, List.cons_append, beq_self_eq_true,
        Bool.true_and]
      exact hcore
    rw [findTokenMatch, List.find?]
    rw [show ((tokenOf (k, v).1).isPrefixOf (tokenOf n ++ b)) = (k == n) from hpre]
    by_cases hkn : k = n
    · subst hkn
      simp [List.lookup_cons]
    · have hb : (k == n) = false := beq_eq_false_iff_ne.mpr hkn
      rw [hb]
      have := findTokenMatch_at_token n b hn m
        (fun p hp => hm p (List.mem_cons_of_mem _ hp))
      rw [findTokenMatch] at this
      rw [this, List.lookup_cons]
      have hnk : (n == k) = false := beq_eq_false_iff_ne.mpr (Ne.symm hkn)
      rw [hnk]

/-- The token of a mapped simple name is replaced by the mapped value. -/
lemma substituteChars_token_mapped (m : List (List Char × List Char))
    (n v b : List Char) (hm : ∀ p ∈ m, SimpleName p.1) (hn : SimpleName n)
    (hv : List.lookup n m = some v) :
    substituteChars m (tokenOf n ++ b) = v ++ substituteChars m b := by
  have hfind : findTokenMatch m ('$' :: ('{' :: (n ++ '}' :: b))) = some (n, v) := by
    have := findTokenMatch_at_token n b hn m hm
    rw [hv] at this
    rw [show '$' :: ('{' :: (n ++ '}' :: b)) = tokenOf n ++ b from by simp [tokenOf]]
    simpa using this
  have hshape : tokenOf n ++ b = '$' :: ('{' :: (n ++ '}' :: b)) := by
    simp [tokenOf]
  rw [hshape, substituteChars_cons_match m '$' ('{' :: (n ++ '}' :: b)) n v hfind]
  rw [show '$' :: ('{' :: (n ++ '}' :: b)) = tokenOf n ++ b from hshape.symm,
    List.drop_left]

/-- The token of an unmapped simple name is left verbatim. -/
lemma substituteChars_token_unmapped (m : List (List Char × List Char))
    (n b : List Char) (hm : ∀ p ∈ m, SimpleName p.1) (hn : SimpleName n)
    (hv : List.lookup n m = none) :
    substituteChars m (tokenOf n ++ b) = tokenOf n ++ substituteChars m b := by
  have hfind : findTokenMatch m ('$' :: ('{' :: (n ++ '}' :: b))) = none := by
    have := findTokenMatch_at_token n b hn m hm
    rw [hv] at this
    rw [show '$' :: ('{' :: (n ++ '}' :: b)) = tokenOf n ++ b from by simp [tokenOf]]
    simpa using this
  have hshape : tokenOf n ++ b = '$' :: ('{' :: (n ++ '}' :: b)) := by
    simp [tokenOf]
  rw [hshape, substituteChars_cons_none m '$' ('{' :: (n ++ '}' :: b)) hfind]
  have hmid : '{' :: (n ++ '}' :: b) = ('{' :: (n ++ ['}'])) ++ b := by
    simp
  have hfree : '$' ∉ '{' :: (n ++ ['}']) := by
    intro h
    rcases List.mem_cons.mp h with h | h
    · cases h
    · rcases List.mem_append.mp h with h | h
      · exact hn.2.1 h
      · simp at h
  rw [hmid, substituteChars_append_dollarFree m _ b hfree]
  simp [tokenOf]

/-- C1: the dispatcher runs exactly the substituted template, and the
substitution replaces every literal occurrence of a mapped placeholder
with the mapped value taken verbatim (never re-expanded), leaves every
unmapped placeholder in place, and copies everything else unchanged.  The
first two conjuncts characterise the scan at an arbitrary placeholder
occurrence inside an arbitrary dollar-free prefix; the third states that
placeholder-free text is untouched; the last ties the executed command of
the dispatcher to the substitution. -/
theorem executed_command_is_substituted_template
    (m : List (List Char × List Char)) (a b n v : List Char)
    (hm : ∀ p ∈ m, SimpleName p.1) (hn : SimpleName n) (ha : '$' ∉ a) :
    (List.lookup n m = some v →
      substituteChars m (a ++ (tokenOf n ++ b)) =
        a ++ (v ++ substituteChars m b)) ∧
    (List.lookup n m = none →
      substituteChars m (a ++ (tokenOf n ++ b)) =
        a ++ (tokenOf n ++ substituteChars m b)) ∧
    substituteChars m a = a ∧
    (∀ (task : Task) (values : List (String × String)) (lcwd : String)
        (ok : Bool) (dirExists : String → Bool) (eu : String → String)
        (code : Int), dirExists (eu task.cwd) = true →
      Event.spawn (substitute_parameters values task.command) (eu task.cwd) ∈
        run_task_with_params task (some values) lcwd ok dirExists eu code) := by
  refine ⟨?_, ?_, ?_, ?_⟩
  · intro hv
    rw [substituteChars_append_dollarFree m a _ ha,
      substituteChars_token_mapped m n v b hm hn hv]
  · intro hv
    rw [substituteChars_append_dollarFree m a _ ha,
      substituteChars_token_unmapped m n b hm hn hv]
  · have h0 := substituteChars_append_dollarFree m a [] ha
    rw [List.append_nil, substituteChars_nil, List.append_nil] at h0
    exact h0
  · intro task values lcwd ok dirExists eu code hdir
    cases ok <;> simp [run_task_with_params, hdir]

/-- C1 witness: echo followed by a mapped placeholder whose value is
itself a placeholder of another mapped name; the value is emitted
verbatim, demonstrating that substitution never cascades, and an
unmapped placeholder stays. -/
theorem executed_command_is_substituted_template_witness :
    substituteChars [(['a'], tokenOf ['x']), (['x'], ['2'])]
        (('e' :: 'c' :: 'h' :: 'o' :: ' ' :: []) ++ (tokenOf ['a'] ++ [])) =
      ('e' :: 'c' :: 'h' :: 'o' :: ' ' :: []) ++ (tokenOf ['x'] ++ []) ∧
    substituteChars [] (('e' :: ' ' :: []) ++ (tokenOf ['q'] ++ [])) =
      ('e' :: ' ' :: []) ++ (tokenOf ['q'] ++ []) := by
  have h1 := executed_command_is_substituted_template
    [(['a'], tokenOf ['x']), (['x'], ['2'])]
    ('e' :: 'c' :: 'h' :: 'o' :: ' ' :: []) [] ['a'] (tokenOf ['x'])
    (by decide) (by decide) (by decide)
  have h2 := executed_command_is_substituted_template []
    ('e' :: ' ' :: []) [] ['q'] []
    (by decide) (by decide) (by decide)
  constructor
  · have := h1.1 (by decide)
    rw [this, substituteChars_nil]
  · have := h2.2.1 (by decide)
    rw [this, substituteChars_nil]

/-! ## C7 -/

/-- C7 amended: with an empty query the ranker returns all tasks (a
permutation of the collection) ordered by effective timestamp descending
with a missing timestamp counted as 0, tasks of equal effective timestamp
keeping the collection order (the filter equations), and every never-run
task placed after every task with a positive timestamp.  (A stored
non-positive timestamp ties with or sorts below never-run tasks, which is
what the counterexample exhibits.) -/
theorem empty_query_recency_order (scorer : String → String → Nat)
    (tasks out : List Task) (limit score_cutoff : Nat)
    (hout : fuzzy_search_tasks scorer "" tasks limit score_cutoff = out) :
    out.Perm tasks ∧
    out.Pairwise (fun a b => recencyKey b ≤ recencyKey a) ∧
    (∀ k : Int, out.filter (fun t => decide (recencyKey t = k)) =
      tasks.filter (fun t => decide (recencyKey t = k))) ∧
    (∀ (i j : Fin out.length) (ts : Int),
      (out.get i).last_run_timestamp = none →
      (out.get j).last_run_timestamp = some ts → 0 < ts →
      (j : Nat) < (i : Nat)) := by
  have hsort : out = sortByRecency tasks := by
    rw [← hout, fuzzy_search_tasks, if_pos rfl]
  subst hsort
  refine ⟨?_, ?_, ?_, ?_⟩
  · exact List.perm_insertionSort _ _
  · exact pairwise_insertionSort_key recencyKey tasks
  · intro k
    exact filter_insertionSort_key recencyKey k tasks
  · intro i j ts hnone hsome hpos
    have hpair : (sortByRecency tasks).Pairwise
        (fun a b => recencyKey b ≤ recencyKey a) :=
      pairwise_insertionSort_key recencyKey tasks
    rcases Nat.lt_trichotomy (j : Nat) (i : Nat) with h | h | h
    · exact h
    · exfalso
      have hij : i = j := Fin.ext h.symm
      rw [hij, hsome] at hnone
      cases hnone
    · exfalso
      have hle := (List.pairwise_iff_get.mp hpair) i j h
      rw [recencyKey, recencyKey, hnone, hsome] at hle
      simp at hle
      omega

/-- A task that never ran, for the C7 counterexample. -/
def c7null : Task := { id := "a", name := "n", command := "c" }

/-- A task whose stored timestamp is the epoch 0, for the C7
counterexample. -/
def c7zero : Task :=
  { id := "b", name := "n", command := "c", last_run_timestamp := some 0 }

/-- C7 counterexample: treating a missing timestamp as 0 does not place
every never-run task after every task with a stored timestamp, because a
stored timestamp 0 produces the same sort key; the stable sort then keeps
the never-run task first. -/
theorem null_not_after_nonnull_counterexample :
    fuzzy_search_tasks (fun _ _ => 0) "" [c7null, c7zero] 50 60 =
      [c7null, c7zero] ∧
    c7null.last_run_timestamp = none ∧
    c7zero.last_run_timestamp = some 0 ∧
    ¬ (∀ (i j : Fin 2), ([c7null, c7zero].get i).last_run_timestamp = none →
        ([c7null, c7zero].get j).last_run_timestamp ≠ none →
        (j : Nat) < (i : Nat)) := by
  decide

/-- C7 amended witness: a ran task and a never-run task. -/
theorem empty_query_recency_order_witness :
    (fuzzy_search_tasks (fun _ _ => 0) ""
        [{ id := "p", name := "n", command := "c",
           last_run_timestamp := some 3 },
         { id := "q", name := "n", command := "c" }] 50 60).Perm
      [{ id := "p", name := "n", command := "c",
         last_run_timestamp := some 3 },
       { id := "q", name := "n", command := "c" }] ∧
    (fuzzy_search_tasks (fun _ _ => 0) ""
        [{ id := "p", name := "n", command := "c",
           last_run_timestamp := some 3 },
         { id := "q", name := "n", command := "c" }] 50 60).filter
        (fun t => decide (recencyKey t = 3)) =
      [{ id := "p", name := "n", command := "c",
         last_run_timestamp := some 3 }] := by
  have h := empty_query_recency_order (fun _ _ => 0)
    [{ id := "p", name := "n", command := "c", last_run_timestamp := some 3 },
     { id := "q", name := "n", command := "c" }] _ 50 60 rfl
  exact ⟨h.1, (h.2.2.1 3).trans (by decide)⟩

/-! ## C3 -/

/-- First of two distinct tasks with identical searchable strings. -/
def dupFirst : Task :=
  { id := "1", name := "deploy", command := "run", description := some "d" }

/-- Second of two distinct tasks with identical searchable strings. -/
def dupSecond : Task :=
  { id := "2", name := "deploy", command := "run", description := some "d" }

/-- C3: the ranker keys its results through a map from the searchable
string, not the task id; two distinct tasks with identical combined
strings are conflated, only the later task is ever returned and the
earlier one can never appear.  The design document requires keying by
task id precisely so that both can appear; the code violates this (its
own comment concedes that the map only keeps the last task for a
duplicated string). -/
theorem identical_strings_conflated_to_last_task :
    searchableString dupFirst = searchableString dupSecond ∧
    dupFirst.id ≠ dupSecond.id ∧
    fuzzy_search_tasks (fun _ _ => 100) "deploy" [dupFirst, dupSecond] 50 60 =
      [dupSecond] ∧
    dupFirst ∉
      fuzzy_search_tasks (fun _ _ => 100) "deploy" [dupFirst, dupSecond] 50 60 := by
  decide

/-! ## C6 and C10: properties of the extraction pipeline -/

/-- Every extraction result is a choice scored at or above the cutoff. -/
lemma extract_mem (scorer : String → String → Nat) (query : String)
    (choices : List String) (limit score_cutoff : Nat) (r : String × Nat)
    (h : r ∈ extract scorer query choices limit score_cutoff) :
    r.1 ∈ choices ∧ r.2 = scorer query r.1 ∧ score_cutoff ≤ r.2 := by
  simp only [extract] at h
  have h1 := (List.take_sublist _ _).subset h
  rw [List.mem_insertionSort] at h1
  have h2 := List.mem_of_mem_filter h1
  have h3 := List.of_mem_filter h1
  rcases List.mem_map.mp h2 with ⟨c, hc, rfl⟩
  exact ⟨hc, rfl, of_decide_eq_true h3⟩

/-- Extraction results are sorted by score, descending. -/
lemma extract_pairwise (scorer : String → String → Nat) (query : String)
    (choices : List String) (limit score_cutoff : Nat) :
    (extract scorer query choices limit score_cutoff).Pairwise
      (fun a b => b.2 ≤ a.2) := by
  simp only [extract]
  exact List.Pairwise.sublist (List.take_sublist _ _)
    (pairwise_insertionSort_key Prod.snd _)

/-- Extraction returns at most the requested number of results. -/
lemma extract_length_le (scorer : String → String → Nat) (query : String)
    (choices : List String) (limit score_cutoff : Nat) :
    (extract scorer query choices limit score_cutoff).length ≤ limit := by
  simp only [extract]
  exact List.length_take_le _ _

/-- Stability of extraction through the cutoff filter and the cap: the
results at any fixed score are a subsequence of the scored choices in
their original order. -/
lemma extract_filter_sublist (scorer : String → String → Nat) (query : String)
    (choices : List String) (limit score_cutoff k : Nat) :
    List.Sublist
      ((extract scorer query choices limit score_cutoff).filter
        (fun r => decide (r.2 = k)))
      ((choices.map (fun c => (c, scorer query c))).filter
        (fun r => decide (r.2 = k))) := by
  simp only [extract]
  have h1 := (List.take_sublist limit
    (List.insertionSort (fun a b => b.2 ≤ a.2)
      ((choices.map (fun c => (c, scorer query c))).filter
        (fun x => decide (score_cutoff ≤ x.2))))).filter
    (fun r => decide (r.2 = k))
  have h2 := filter_insertionSort_key (Prod.snd) k
    ((choices.map (fun c => (c, scorer query c))).filter
      (fun x => decide (score_cutoff ≤ x.2)))
  rw [h2] at h1
  exact h1.trans ((List.filter_sublist _).filter _)

/-- With pairwise distinct choices the matched strings of the extraction
results are pairwise distinct. -/
lemma extract_strings_nodup (scorer : String → String → Nat) (query : String)
    (choices : List String) (limit score_cutoff : Nat) (h : choices.Nodup) :
    ((extract scorer query choices limit score_cutoff).map Prod.fst).Nodup := by
  simp only [extract]
  have hscored : ((choices.map (fun c => (c, scorer query c))).map Prod.fst).Nodup := by
    rw [List.map_map,
      show (Prod.fst ∘ fun c => (c, scorer query c)) = fun c : String => c
        from rfl,
      List.map_id']
    exact h
  have h1 : (((choices.map (fun c => (c, scorer query c))).filter
      (fun x => decide (score_cutoff ≤ x.2))).map Prod.fst).Nodup :=
    List.Nodup.sublist ((List.filter_sublist _).map Prod.fst) hscored
  have h2 : ((List.insertionSort (fun a b => b.2 ≤ a.2)
      ((choices.map (fun c => (c, scorer query c))).filter
        (fun x => decide (score_cutoff ≤ x.2)))).map Prod.fst).Nodup :=
    (((List.perm_insertionSort (fun a b => b.2 ≤ a.2) _)).map Prod.fst).nodup_iff.mpr h1
  exact List.Nodup.sublist ((List.take_sublist _ _).map Prod.fst) h2

/-- Resolution of a matched string through the two dicts of the ranker,
with an inert default for the unreachable missing case. -/
def resolveStr (tasks : List Task) (s : String) : Task :=
  ((List.lookup s (searchMapOf tasks)).bind
    (fun tid => List.lookup tid (taskLookupOf tasks))).getD
    { id := "", name := "", command := "" }

/-- With distinct searchable strings, the string-keyed dict maps the
string of a task to the id of that task. -/
lemma lookup_searchMapOf (tasks : List Task) (u : Task)
    (hstr : (tasks.map searchableString).Nodup) (hu : u ∈ tasks) :
    List.lookup (searchableString u) (searchMapOf tasks) = some u.id := by
  apply lookup_of_mem_nodupKeys
  · rw [searchMapOf, List.map_reverse, List.map_map, List.nodup_reverse]
    simpa using hstr
  · rw [searchMapOf, List.mem_reverse]
    exact List.mem_map_of_mem _ hu

/-- With distinct ids, the id-keyed dict maps the id of a task to that
task. -/
lemma lookup_taskLookupOf (tasks : List Task) (u : Task)
    (hids : (tasks.map Task.id).Nodup) (hu : u ∈ tasks) :
    List.lookup u.id (taskLookupOf tasks) = some u := by
  apply lookup_of_mem_nodupKeys
  · rw [taskLookupOf, List.map_reverse, List.map_map, List.nodup_reverse]
    simpa using hids
  · rw [taskLookupOf, List.mem_reverse]
    exact List.mem_map_of_mem _ hu

/-- Whatever the id-keyed dict returns is a stored task carrying the
looked-up id. -/
lemma taskLookupOf_shape (tasks : List Task) (tid : String) (t : Task)
    (h : List.lookup tid (taskLookupOf tasks) = some t) :
    t.id = tid ∧ t ∈ tasks := by
  have hmem := lookup_mem h
  rw [taskLookupOf, List.mem_reverse] at hmem
  rcases List.mem_map.mp hmem with ⟨u, hu, huv⟩
  have h1 : u.id = tid := congrArg Prod.fst huv
  have h2 : u = t := congrArg Prod.snd huv
  exact ⟨h2 ▸ h1, h2 ▸ hu⟩

/-- With distinct ids and distinct searchable strings, resolution inverts
the searchable string. -/
lemma resolveStr_searchable (tasks : List Task) (u : Task)
    (hids : (tasks.map Task.id).Nodup)
    (hstr : (tasks.map searchableString).Nodup) (hu : u ∈ tasks) :
    resolveStr tasks (searchableString u) = u := by
  rw [resolveStr, lookup_searchMapOf tasks u hstr hu, Option.some_bind,
    lookup_taskLookupOf tasks u hids hu]
  rfl

/-- When every result resolves to a fresh task with a distinct non-empty
id, the result loop is exactly a map over the results. -/
lemma collectMatches_eq_map (searchMap : List (String × String))
    (taskLookup : List (String × Task)) (f : String × Nat → Task) :
    ∀ (rs : List (String × Nat)) (seen : List String),
      (∀ r ∈ rs, List.lookup r.1 searchMap = some (f r).id ∧ (f r).id ≠ "" ∧
        List.lookup (f r).id taskLookup = some (f r)) →
      (∀ r ∈ rs, (f r).id ∉ seen) →
      ((rs.map (fun r => (f r).id)).Nodup) →
      collectMatches searchMap taskLookup rs seen = rs.map f
  | [], _, _, _, _ => rfl
  | r :: rs, seen, hres, hseen, hnd => by
    have h1 := hres r (List.mem_cons_self _ _)
    simp only [collectMatches, h1.1]
    rw [if_neg h1.2.1, if_neg (hseen r (List.mem_cons_self _ _))]
    simp only [h1.2.2, List.map_cons]
    congr 1
    apply collectMatches_eq_map searchMap taskLookup f rs ((f r).id :: seen)
    · intro r' h'
      exact hres r' (List.mem_cons_of_mem _ h')
    · intro r' h'
      intro hc
      rcases List.mem_cons.mp hc with hc | hc
      · exact (List.nodup_cons.mp (by simpa using hnd)).1
          (hc ▸ List.mem_map_of_mem (fun r => (f r).id) h')
      · exact hseen r' (List.mem_cons_of_mem _ h') hc
    · exact (List.nodup_cons.mp (by simpa using hnd)).2

/-- The result loop only emits stored tasks, never one whose id was
already seen, and never the same id twice. -/
lemma collectMatches_invariant (tasks : List Task)
    (searchMap : List (String × String)) :
    ∀ (rs : List (String × Nat)) (seen : List String),
      (∀ u ∈ collectMatches searchMap (taskLookupOf tasks) rs seen,
        u ∈ tasks ∧ u.id ∉ seen) ∧
      ((collectMatches searchMap (taskLookupOf tasks) rs seen).map
        Task.id).Nodup
  | [], seen => by simp [collectMatches]
  | r :: rs, seen => by
    cases hl : List.lookup r.1 searchMap with
    | none =>
      simp only [collectMatches, hl]
      exact collectMatches_invariant tasks searchMap rs seen
    | some tid =>
      by_cases h0 : tid = ""
      · simp only [collectMatches, hl, if_pos h0]
        exact collectMatches_invariant tasks searchMap rs seen
      · by_cases hs : tid ∈ seen
        · simp only [collectMatches, hl, if_neg h0, if_pos hs]
          exact collectMatches_invariant tasks searchMap rs seen
        · cases ht : List.lookup tid (taskLookupOf tasks) with
          | none =>
            simp only [collectMatches, hl, if_neg h0, if_neg hs, ht]
            exact collectMatches_invariant tasks searchMap rs seen
          | some t =>
            have hshape := taskLookupOf_shape tasks tid t ht
            have ih := collectMatches_invariant tasks searchMap rs (tid :: seen)
            simp only [collectMatches, hl, if_neg h0, if_neg hs, ht]
            constructor
            · intro u hu
              rcases List.mem_cons.mp hu with rfl | hu
              · exact ⟨hshape.2, hshape.1 ▸ hs⟩
              · exact ⟨(ih.1 u hu).1,
                  fun hc => (ih.1 u hu).2 (List.mem_cons_of_mem _ hc)⟩
            · rw [List.map_cons, List.nodup_cons]
              refine ⟨?_, ih.2⟩
              intro hc
              rcases List.mem_map.mp hc with ⟨u, hu, hui⟩
              exact (ih.1 u hu).2
                (by rw [hui, hshape.1]; exact List.mem_cons_self _ _)

/-- With unique non-empty ids and distinct searchable strings, the ranker
on a non-empty query is the extraction pipeline mapped back to tasks. -/
lemma fuzzy_search_eq_map (scorer : String → String → Nat) (query : String)
    (tasks : List Task) (limit score_cutoff : Nat) (hq : query ≠ "")
    (hids : (tasks.map Task.id).Nodup) (hne : ∀ t ∈ tasks, t.id ≠ "")
    (hstr : (tasks.map searchableString).Nodup) :
    fuzzy_search_tasks scorer query tasks limit score_cutoff =
      (extract scorer query (tasks.map searchableString) limit
        score_cutoff).map (fun r => resolveStr tasks r.1) := by
  rw [fuzzy_search_tasks, if_neg hq]
  have hstrmem : ∀ r ∈ extract scorer query (tasks.map searchableString)
      limit score_cutoff, ∃ u ∈ tasks, r.1 = searchableString u := by
    intro r hr
    have h1 := (extract_mem scorer query _ limit score_cutoff r hr).1
    rcases List.mem_map.mp h1 with ⟨u, hu, hru⟩
    exact ⟨u, hu, hru.symm⟩
  have hfr : ∀ r ∈ extract scorer query (tasks.map searchableString)
      limit score_cutoff,
      resolveStr tasks r.1 ∈ tasks ∧
        searchableString (resolveStr tasks r.1) = r.1 := by
    intro r hr
    rcases hstrmem r hr with ⟨u, hu, hru⟩
    rw [hru, resolveStr_searchable tasks u hids hstr hu]
    exact ⟨hu, rfl⟩
  apply collectMatches_eq_map
  · intro r hr
    rcases hstrmem r hr with ⟨u, hu, hru⟩
    rw [hru, resolveStr_searchable tasks u hids hstr hu]
    exact ⟨lookup_searchMapOf tasks u hstr hu, hne u hu,
      lookup_taskLookupOf tasks u hids hu⟩
  · simp
  · have h1 : ((extract scorer query (tasks.map searchableString) limit
        score_cutoff).map Prod.fst).Nodup :=
      extract_strings_nodup scorer query _ limit score_cutoff hstr
    rw [show (fun r : String × Nat => (resolveStr tasks r.1).id) =
        (fun s => (resolveStr tasks s).id) ∘ Prod.fst from rfl, ← List.map_map]
    apply List.Nodup.map_on ?_ h1
    intro x hx y hy hxy
    rcases List.mem_map.mp hx with ⟨rx, hrx, rfl⟩
    rcases List.mem_map.mp hy with ⟨ry, hry, rfl⟩
    rcases hstrmem rx hrx with ⟨u, hu, hxu⟩
    rcases hstrmem ry hry with ⟨w, hw, hyw⟩
    rw [hxu, hyw] at hxy ⊢
    rw [resolveStr_searchable tasks u hids hstr hu,
      resolveStr_searchable tasks w hids hstr hw] at hxy
    rw [List.inj_on_of_nodup_map hids hu hw hxy]

/-- A task resolved from an extraction result is a stored task whose
searchable string is the matched string. -/
lemma resolve_extract_mem (scorer : String → String → Nat) (query : String)
    (tasks : List Task) (limit score_cutoff : Nat)
    (hids : (tasks.map Task.id).Nodup)
    (hstr : (tasks.map searchableString).Nodup) (r : String × Nat)
    (hr : r ∈ extract scorer query (tasks.map searchableString) limit
      score_cutoff) :
    resolveStr tasks r.1 ∈ tasks ∧
      searchableString (resolveStr tasks r.1) = r.1 := by
  have h1 := (extract_mem scorer query _ limit score_cutoff r hr).1
  rcases List.mem_map.mp h1 with ⟨u, hu, hru⟩
  rw [← hru, resolveStr_searchable tasks u hids hstr hu]
  exact ⟨hu, rfl⟩

/-- C6 amended: on a non-empty query, provided the stored invariants hold
(unique non-empty task ids) and the combined searchable strings are
pairwise distinct, every returned task scored at least the cutoff, the
list is sorted non-increasing by score, equal-score tasks appear as a
subsequence of the collection (ties keep the original collection order),
and at most the limit is returned. -/
theorem filtered_results_cutoff_sorted_capped (scorer : String → String → Nat)
    (query : String) (tasks : List Task) (limit score_cutoff : Nat)
    (hq : query ≠ "") (hids : (tasks.map Task.id).Nodup)
    (hne : ∀ t ∈ tasks, t.id ≠ "")
    (hstr : (tasks.map searchableString).Nodup) :
    (∀ t ∈ fuzzy_search_tasks scorer query tasks limit score_cutoff,
      score_cutoff ≤ scorer query (searchableString t)) ∧
    (fuzzy_search_tasks scorer query tasks limit score_cutoff).Pairwise
      (fun a b => scorer query (searchableString b) ≤
        scorer query (searchableString a)) ∧
    (∀ k : Nat, List.Sublist
      ((fuzzy_search_tasks scorer query tasks limit score_cutoff).filter
        (fun t => decide (scorer query (searchableString t) = k))) tasks) ∧
    (fuzzy_search_tasks scorer query tasks limit score_cutoff).length ≤
      limit := by
  rw [fuzzy_search_eq_map scorer query tasks limit score_cutoff hq hids hne hstr]
  refine ⟨?_, ?_, ?_, ?_⟩
  · intro t ht
    rcases List.mem_map.mp ht with ⟨r, hr, rfl⟩
    have he := extract_mem scorer query _ limit score_cutoff r hr
    rw [(resolve_extract_mem scorer query tasks limit score_cutoff hids hstr
      r hr).2, ← he.2.1]
    exact he.2.2
  · rw [List.pairwise_map]
    apply List.Pairwise.imp_of_mem ?_
      (extract_pairwise scorer query (tasks.map searchableString) limit
        score_cutoff)
    intro a b ha hb hab
    rw [(resolve_extract_mem scorer query tasks limit score_cutoff hids hstr
        a ha).2,
      (resolve_extract_mem scorer query tasks limit score_cutoff hids hstr
        b hb).2,
      ← (extract_mem scorer query _ limit score_cutoff a ha).2.1,
      ← (extract_mem scorer query _ limit score_cutoff b hb).2.1]
    exact hab
  · intro k
    rw [List.filter_map]
    have hcong : (extract scorer query (tasks.map searchableString) limit
          score_cutoff).filter
        ((fun t => decide (scorer query (searchableString t) = k)) ∘
          (fun r => resolveStr tasks r.1)) =
        (extract scorer query (tasks.map searchableString) limit
          score_cutoff).filter (fun r => decide (r.2 = k)) := by
      apply List.filter_congr
      intro r hr
      show decide (scorer query (searchableString (resolveStr tasks r.1)) = k) =
        decide (r.2 = k)
      rw [(resolve_extract_mem scorer query tasks limit score_cutoff hids hstr
          r hr).2,
        (extract_mem scorer query _ limit score_cutoff r hr).2.1]
    rw [hcong]
    have h2 := (extract_filter_sublist scorer query (tasks.map searchableString)
      limit score_cutoff k).trans (List.filter_sublist _)
    have h3 := h2.map (fun r => resolveStr tasks r.1)
    have h4 : ((tasks.map searchableString).map
        (fun c => (c, scorer query c))).map
          (fun r => resolveStr tasks r.1) = tasks := by
      rw [List.map_map, List.map_map]
      have hpt : ∀ u ∈ tasks,
          (((fun r : String × Nat => resolveStr tasks r.1) ∘
            (fun c => (c, scorer query c))) ∘ searchableString) u = u := by
        intro u hu
        exact resolveStr_searchable tasks u hids hstr hu
      rw [List.map_congr_left hpt, List.map_id']
    rw [h4] at h3
    exact h3
  · rw [List.length_map]
    exact extract_length_le scorer query _ limit score_cutoff

/-- First task scoring a tie, searchable string shared with the third. -/
def tieFirst : Task := { id := "1", name := "x", command := "c" }

/-- Second task scoring the same tie with its own string. -/
def tieSecond : Task := { id := "2", name := "y", command := "c" }

/-- Third task, sharing the searchable string of the first. -/
def tieThird : Task := { id := "3", name := "x", command := "c" }

/-- C6 counterexample: with two tasks sharing a searchable string, the
string-keyed map sends both occurrences of that string to the last task,
so among three tasks of equal score the returned list is the third then
the second: the equal-score results are not in collection order (they are
not a subsequence of the collection). -/
theorem ties_break_collection_order_counterexample :
    fuzzy_search_tasks (fun _ _ => 70) "x" [tieFirst, tieSecond, tieThird]
        50 60 = [tieThird, tieSecond] ∧
    (fun _ _ => (70 : Nat)) "x" (searchableString tieSecond) =
      (fun _ _ => (70 : Nat)) "x" (searchableString tieThird) ∧
    ¬ List.Sublist
      ((fuzzy_search_tasks (fun _ _ => 70) "x" [tieFirst, tieSecond, tieThird]
          50 60).filter
        (fun t => decide ((fun _ _ => (70 : Nat)) "x" (searchableString t) = 70)))
      [tieFirst, tieSecond, tieThird] := by
  decide

/-- C6 amended witness: two tasks with distinct strings and ids. -/
theorem filtered_results_cutoff_sorted_capped_witness :
    List.Sublist
      ((fuzzy_search_tasks (fun _ _ => 70) "q"
          [{ id := "1", name := "a", command := "c" },
           { id := "2", name := "b", command := "c" }] 50 60).filter
        (fun t => decide ((fun _ _ => (70 : Nat)) "q" (searchableString t) = 70)))
      [{ id := "1", name := "a", command := "c" },
       { id := "2", name := "b", command := "c" }] ∧
    (fuzzy_search_tasks (fun _ _ => 70) "q"
        [{ id := "1", name := "a", command := "c" },
         { id := "2", name := "b", command := "c" }] 50 60).length ≤ 50 := by
  have h := filtered_results_cutoff_sorted_capped (fun _ _ => 70) "q"
    [{ id := "1", name := "a", command := "c" },
     { id := "2", name := "b", command := "c" }] 50 60
    (by decide) (by decide) (by decide) (by decide)
  exact ⟨h.2.2.1 70, h.2.2.2⟩

/-! ## C10 -/

/-- C10: on any query, empty or not, with pairwise distinct task ids the
ranker returns no task id twice and only members of the collection. -/
theorem ranker_returns_distinct_members (scorer : String → String → Nat)
    (query : String) (tasks : List Task) (limit score_cutoff : Nat)
    (hids : (tasks.map Task.id).Nodup) :
    ((fuzzy_search_tasks scorer query tasks limit score_cutoff).map
      Task.id).Nodup ∧
    ∀ t ∈ fuzzy_search_tasks scorer query tasks limit score_cutoff,
      t ∈ tasks := by
  by_cases hq : query = ""
  · rw [fuzzy_search_tasks, if_pos hq]
    have hperm : (sortByRecency tasks).Perm tasks :=
      List.perm_insertionSort _ _
    exact ⟨(hperm.map Task.id).nodup_iff.mpr hids,
      fun t ht => hperm.mem_iff.mp ht⟩
  · rw [fuzzy_search_tasks, if_neg hq]
    have h := collectMatches_invariant tasks (searchMapOf tasks)
      (extract scorer query (tasks.map searchableString) limit score_cutoff) []
    exact ⟨h.2, fun t ht => (h.1 t ht).1⟩

/-- C10 witness: a concrete filtered search. -/
theorem ranker_returns_distinct_members_witness :
    ((fuzzy_search_tasks (fun _ _ => 80) "q"
        [{ id := "1", name := "a", command := "c" },
         { id := "2", name := "b", command := "c" }] 50 60).map
      Task.id).Nodup ∧
    (fuzzy_search_tasks (fun _ _ => 80) "q"
        [{ id := "1", name := "a", command := "c" },
         { id := "2", name := "b", command := "c" }] 50 60).map Task.id =
      ["1", "2"] := by
  have h := ranker_returns_distinct_members (fun _ _ => 80) "q"
    [{ id := "1", name := "a", command := "c" },
     { id := "2", name := "b", command := "c" }] 50 60 (by decide)
  exact ⟨h.1, by decide⟩

end CmdPal
